import Mathlib

/-!
# Packet headers: version table, classification tables, protocol fingerprint

A shallow embedding of `libraries/networking/src/udt/PacketHeaders.cpp`.

The enumeration `PacketType` and the named version constants are declared in
`PacketHeaders.h`, which is not part of the sources at hand; they enter the
development as parameters (`PacketTypeEnum`, `VersionConstants`).  The Qt
primitives the file calls (`QSet`, `QHash`, `QDataStream`, `QCryptographicHash`,
`QByteArray::toBase64`) are modelled on lists of bytes.
-/

namespace PacketHeaders

/-! ## The enumeration and the version constants (parameters) -/

/-- The enumerators of `PacketType` that `PacketHeaders.cpp` mentions by name. -/
inductive PacketTypeName
  | NodeJsonStats | EntityQuery | OctreeDataNack | EntityEditNack
  | DomainListRequest | StopNode | DomainDisconnectRequest | UsernameFromIDRequest
  | NodeKickRequest | NodeMuteRequest
  | StunResponse | CreateAssignment | RequestAssignment
  | DomainServerRequireDTLS | DomainConnectRequest
  | DomainList | DomainConnectionDenied
  | DomainServerPathQuery | DomainServerPathResponse
  | DomainServerAddedNode | DomainServerConnectionToken
  | DomainSettingsRequest | DomainSettings
  | ICEServerPeerInformation | ICEServerQuery | ICEServerHeartbeat
  | ICEServerHeartbeatACK | ICEPing | ICEPingReply
  | ICEServerHeartbeatDenied | AssignmentClientStatus
  | DomainServerRemovedNode | UsernameFromIDReply | OctreeFileReplacement
  | ReplicatedMicrophoneAudioNoEcho | ReplicatedMicrophoneAudioWithEcho
  | ReplicatedInjectAudio | ReplicatedSilentAudioFrame
  | ReplicatedAvatarIdentity | ReplicatedKillAvatar | ReplicatedBulkAvatarData
  | OctreeFileReplacementFromUrl
  | MicrophoneAudioNoEcho | MicrophoneAudioWithEcho | InjectAudio | SilentAudioFrame
  | AvatarIdentity | KillAvatar | BulkAvatarData
  | EntityAdd | EntityEdit | EntityData | EntityPhysics
  | AvatarData | MessagesData
  | AssetGetInfo | AssetGet | AssetUpload
  | NodeIgnoreRequest | MixedAudio | AudioStreamStats
  deriving DecidableEq, Repr, Fintype

/-- The declaration of `enum class PacketType` (in `PacketHeaders.h`, not at hand):
the numeric code of every enumerator the source names, and the
enumerator `NUM_PACKET_TYPE` that closes the enumeration. A value of type
`PacketType` is represented by its numeric code, a `Nat`; so is a `PacketVersion`. -/
structure PacketTypeEnum where
  code : PacketTypeName → Nat
  NUM_PACKET_TYPE : Nat

/-- What the enumeration is known to satisfy: distinct enumerators have distinct
codes, every packet type precedes `NUM_PACKET_TYPE`, and the count fits the
`uint8_t` the source casts it to. -/
structure PacketTypeEnum.WellFormed (E : PacketTypeEnum) : Prop where
  code_injective : Function.Injective E.code
  code_lt : ∀ n, E.code n < E.NUM_PACKET_TYPE
  num_le : E.NUM_PACKET_TYPE ≤ 255

instance (E : PacketTypeEnum) : Decidable E.WellFormed :=
  decidable_of_iff
    (Function.Injective E.code ∧ (∀ n, E.code n < E.NUM_PACKET_TYPE) ∧
      E.NUM_PACKET_TYPE ≤ 255)
    ⟨fun h => ⟨h.1, h.2.1, h.2.2⟩, fun h => ⟨h.1, h.2, h.3⟩⟩

/-- The named version constants `versionForPacketType` returns; they are declared
in `PacketHeaders.h`, not at hand. Each field is the numeric value of the constant. -/
structure VersionConstants where
  DomainListVersion_GetMachineFingerprintFromUUIDSupport : Nat
  VERSION_ENTITIES_BULLET_DYNAMICS : Nat
  EntityQueryPacketVersion_JSONFilterWithFamilyTree : Nat
  AvatarMixerPacketVersion_IsReplicatedInAvatarIdentity : Nat
  MessageDataVersion_TextOrBinaryData : Nat
  AssetServerPacketVersion_RangeRequestSupport : Nat
  DomainConnectionDeniedVersion_IncludesExtraInfo : Nat
  DomainConnectRequestVersion_HasMachineFingerprint : Nat
  DomainServerAddedNodeVersion_PermissionsGrid : Nat
  AudioVersion_HighDynamicRangeVolume : Nat

/-- The list of the ten named constants, in the order of the switch. -/
def VersionConstants.all (V : VersionConstants) : List Nat :=
  [ V.DomainListVersion_GetMachineFingerprintFromUUIDSupport,
    V.VERSION_ENTITIES_BULLET_DYNAMICS,
    V.EntityQueryPacketVersion_JSONFilterWithFamilyTree,
    V.AvatarMixerPacketVersion_IsReplicatedInAvatarIdentity,
    V.MessageDataVersion_TextOrBinaryData,
    V.AssetServerPacketVersion_RangeRequestSupport,
    V.DomainConnectionDeniedVersion_IncludesExtraInfo,
    V.DomainConnectRequestVersion_HasMachineFingerprint,
    V.DomainServerAddedNodeVersion_PermissionsGrid,
    V.AudioVersion_HighDynamicRangeVolume ]

/-- The baseline version, the `default:` branch of `versionForPacketType`. -/
def BASELINE_VERSION : Nat := 17

/-- Modelled from the spec: the values of the named version constants
(`PacketHeaders.h` is missing). The spec makes a version "a small unsigned integer"
written "as a fixed-width integer", a type that never needed a bump stays at the
baseline, and the table is "only extended with higher values"; so every named
constant is a one-byte value no lower than the baseline. -/
def VersionConstants.NeverBelowBaseline (V : VersionConstants) : Prop :=
  ∀ v ∈ V.all, BASELINE_VERSION ≤ v ∧ v < 256

instance (V : VersionConstants) : Decidable V.NeverBelowBaseline := by
  unfold VersionConstants.NeverBelowBaseline; infer_instance

/-! ## Qt containers -/

/-- Qt `QSet<T>::operator<<`: insert a value (a set holds a value once). -/
def QSet.insert (s : List Nat) (x : Nat) : List Nat :=
  if x ∈ s then s else s ++ [x]

/-- Qt `QSet<T>::contains`. -/
def QSet.contains (s : List Nat) (x : Nat) : Bool :=
  decide (x ∈ s)

/-- Qt `QHash<K,T>::insert`: the value of an existing key is replaced. -/
def QHash.insert (h : List (Nat × Nat)) (k v : Nat) :
    List (Nat × Nat) :=
  if h.any (fun e => e.1 == k) then h.map (fun e => if e.1 == k then (k, v) else e)
  else h ++ [(k, v)]

/-- Qt `QHash<K,T>` built from an initializer list: the pairs are inserted in order. -/
def QHash.ofList (l : List (Nat × Nat)) : List (Nat × Nat) :=
  l.foldl (fun h e => QHash.insert h e.1 e.2) []

/-- Qt `QHash<K,T>::find` / `value`: the value stored under a key, if any. -/
def QHash.find (h : List (Nat × Nat)) (k : Nat) : Option Nat :=
  (h.find? (fun e => e.1 == k)).map Prod.snd

/-! ## The classification tables -/

section Tables
open PacketTypeName

/-- The set `NON_VERIFIED_PACKETS` (lines 25-30). -/
def NON_VERIFIED_PACKETS (E : PacketTypeEnum) : List Nat :=
  [ NodeJsonStats, EntityQuery,
    OctreeDataNack, EntityEditNack,
    DomainListRequest, StopNode,
    DomainDisconnectRequest, UsernameFromIDRequest,
    NodeKickRequest, NodeMuteRequest ].foldl (fun s n => QSet.insert s (E.code n)) []

/-- The set `NON_SOURCED_PACKETS` (lines 32-46). -/
def NON_SOURCED_PACKETS (E : PacketTypeEnum) : List Nat :=
  [ StunResponse, CreateAssignment, RequestAssignment,
    DomainServerRequireDTLS, DomainConnectRequest,
    DomainList, DomainConnectionDenied,
    DomainServerPathQuery, DomainServerPathResponse,
    DomainServerAddedNode, DomainServerConnectionToken,
    DomainSettingsRequest, DomainSettings,
    ICEServerPeerInformation, ICEServerQuery, ICEServerHeartbeat,
    ICEServerHeartbeatACK, ICEPing, ICEPingReply,
    ICEServerHeartbeatDenied, AssignmentClientStatus, StopNode,
    DomainServerRemovedNode, UsernameFromIDReply, OctreeFileReplacement,
    ReplicatedMicrophoneAudioNoEcho, ReplicatedMicrophoneAudioWithEcho,
    ReplicatedInjectAudio, ReplicatedSilentAudioFrame,
    ReplicatedAvatarIdentity, ReplicatedKillAvatar, ReplicatedBulkAvatarData,
    OctreeFileReplacementFromUrl ].foldl (fun s n => QSet.insert s (E.code n)) []

/-- The initializer list of `REPLICATED_PACKET_MAPPING` (lines 49-55). -/
def replicatedPairs : List (PacketTypeName × PacketTypeName) :=
  [ (MicrophoneAudioNoEcho, ReplicatedMicrophoneAudioNoEcho),
    (MicrophoneAudioWithEcho, ReplicatedMicrophoneAudioWithEcho),
    (InjectAudio, ReplicatedInjectAudio),
    (SilentAudioFrame, ReplicatedSilentAudioFrame),
    (AvatarIdentity, ReplicatedAvatarIdentity),
    (KillAvatar, ReplicatedKillAvatar),
    (BulkAvatarData, ReplicatedBulkAvatarData) ]

/-- The hash `REPLICATED_PACKET_MAPPING` (lines 48-56). -/
def REPLICATED_PACKET_MAPPING (E : PacketTypeEnum) : List (Nat × Nat) :=
  QHash.ofList (replicatedPairs.map (fun p => (E.code p.1, E.code p.2)))

/-- The lookup the spec calls `replicaFor`: `REPLICATED_PACKET_MAPPING.find`. -/
def replicaFor (E : PacketTypeEnum) (t : Nat) : Option Nat :=
  QHash.find (REPLICATED_PACKET_MAPPING E) t

/-! ## The version resolver -/

/-- The conversion `static_cast<PacketVersion>`: a packet version is one byte. -/
def castPacketVersion (x : Nat) : Nat := x % 256

/-- Function `versionForPacketType` (lines 58-105): the switch, one arm per `return`. -/
def versionForPacketType (E : PacketTypeEnum) (V : VersionConstants)
    (packetType : Nat) : Nat :=
  if packetType = E.code DomainList then
    castPacketVersion V.DomainListVersion_GetMachineFingerprintFromUUIDSupport
  else if packetType = E.code EntityAdd ∨ packetType = E.code EntityEdit
      ∨ packetType = E.code EntityData ∨ packetType = E.code EntityPhysics then
    castPacketVersion V.VERSION_ENTITIES_BULLET_DYNAMICS
  else if packetType = E.code EntityQuery then
    castPacketVersion V.EntityQueryPacketVersion_JSONFilterWithFamilyTree
  else if packetType = E.code AvatarIdentity ∨ packetType = E.code AvatarData
      ∨ packetType = E.code BulkAvatarData ∨ packetType = E.code KillAvatar then
    castPacketVersion V.AvatarMixerPacketVersion_IsReplicatedInAvatarIdentity
  else if packetType = E.code MessagesData then
    castPacketVersion V.MessageDataVersion_TextOrBinaryData
  else if packetType = E.code ICEServerHeartbeat then
    18
  else if packetType = E.code AssetGetInfo ∨ packetType = E.code AssetGet
      ∨ packetType = E.code AssetUpload then
    castPacketVersion V.AssetServerPacketVersion_RangeRequestSupport
  else if packetType = E.code NodeIgnoreRequest then
    18
  else if packetType = E.code DomainConnectionDenied then
    castPacketVersion V.DomainConnectionDeniedVersion_IncludesExtraInfo
  else if packetType = E.code DomainConnectRequest then
    castPacketVersion V.DomainConnectRequestVersion_HasMachineFingerprint
  else if packetType = E.code DomainServerAddedNode then
    castPacketVersion V.DomainServerAddedNodeVersion_PermissionsGrid
  else if packetType = E.code MixedAudio ∨ packetType = E.code SilentAudioFrame
      ∨ packetType = E.code InjectAudio ∨ packetType = E.code MicrophoneAudioNoEcho
      ∨ packetType = E.code MicrophoneAudioWithEcho
      ∨ packetType = E.code AudioStreamStats then
    castPacketVersion V.AudioVersion_HighDynamicRangeVolume
  else
    17

end Tables

/-! ## Qt primitives used by the fingerprint -/

/-- Qt `QDataStream::operator<<(quint8)`: one byte is appended to the buffer. -/
def QDataStream.writeUInt8 (buffer : List Nat) (b : Nat) : List Nat :=
  buffer ++ [b % 256]

/-- Per-round left-rotation amounts of MD5 (RFC 1321). -/
def md5ShiftAmounts : List Nat :=
  [7, 12, 17, 22, 7, 12, 17, 22, 7, 12, 17, 22, 7, 12, 17, 22,
   5, 9, 14, 20, 5, 9, 14, 20, 5, 9, 14, 20, 5, 9, 14, 20,
   4, 11, 16, 23, 4, 11, 16, 23, 4, 11, 16, 23, 4, 11, 16, 23,
   6, 10, 15, 21, 6, 10, 15, 21, 6, 10, 15, 21, 6, 10, 15, 21]

/-- The additive constants of MD5 (RFC 1321). -/
def md5SineTable : List Nat :=
  [0xd76aa478, 0xe8c7b756, 0x242070db, 0xc1bdceee, 0xf57c0faf, 0x4787c62a, 0xa8304613, 0xfd469501,
   0x698098d8, 0x8b44f7af, 0xffff5bb1, 0x895cd7be, 0x6b901122, 0xfd987193, 0xa679438e, 0x49b40821,
   0xf61e2562, 0xc040b340, 0x265e5a51, 0xe9b6c7aa, 0xd62f105d, 0x02441453, 0xd8a1e681, 0xe7d3fbc8,
   0x21e1cde6, 0xc33707d6, 0xf4d50d87, 0x455a14ed, 0xa9e3e905, 0xfcefa3f8, 0x676f02d9, 0x8d2a4c8a,
   0xfffa3942, 0x8771f681, 0x6d9d6122, 0xfde5380c, 0xa4beea44, 0x4bdecfa9, 0xf6bb4b60, 0xbebfbc70,
   0x289b7ec6, 0xeaa127fa, 0xd4ef3085, 0x04881d05, 0xd9d4d039, 0xe6db99e5, 0x1fa27cf8, 0xc4ac5665,
   0xf4292244, 0x432aff97, 0xab9423a7, 0xfc93a039, 0x655b59c3, 0x8f0ccc92, 0xffeff47d, 0x85845dd1,
   0x6fa87e4f, 0xfe2ce6e0, 0xa3014314, 0x4e0811a1, 0xf7537e82, 0xbd3af235, 0x2ad7d2bb, 0xeb86d391]

/-- Rotate a 32-bit word left. -/
def rotl32 (x c : Nat) : Nat := ((x <<< c) ||| (x >>> (32 - c))) % 4294967296

/-- Bitwise complement of a 32-bit word. -/
def not32 (x : Nat) : Nat := 4294967295 - x % 4294967296

/-- Group bytes into little-endian 32-bit words. -/
def leWords : List Nat → List Nat
  | a :: b :: c :: d :: rest => (a + 256 * b + 65536 * c + 16777216 * d) :: leWords rest
  | _ => []

/-- The `k` low bytes of `x`, least significant first. -/
def leBytes (k x : Nat) : List Nat := (List.range k).map (fun i => x / 256 ^ i % 256)

/-- MD5 padding: a `0x80` byte, zeros up to 56 modulo 64, the bit length on 8 bytes. -/
def md5Pad (msg : List Nat) : List Nat :=
  msg ++ [128] ++ List.replicate ((119 - msg.length % 64) % 64) 0
    ++ leBytes 8 (8 * msg.length % 2 ^ 64)

/-- One of the 64 operations of an MD5 block, on the words `m` of the block. -/
def md5Round (m : List Nat) (st : Nat × Nat × Nat × Nat) (i : Nat) : Nat × Nat × Nat × Nat :=
  let (a, b, c, d) := st
  let f := if i < 16 then (b &&& c) ||| (not32 b &&& d)
    else if i < 32 then (d &&& b) ||| (not32 d &&& c)
    else if i < 48 then b ^^^ c ^^^ d
    else c ^^^ (b ||| not32 d)
  let g := if i < 16 then i else if i < 32 then (5 * i + 1) % 16
    else if i < 48 then (3 * i + 5) % 16 else (7 * i) % 16
  let x := (f + a + md5SineTable.getD i 0 + m.getD g 0) % 4294967296
  (d, (b + rotl32 x (md5ShiftAmounts.getD i 0)) % 4294967296, b, c)

/-- The MD5 compression of one 64-byte block. -/
def md5Block (st : Nat × Nat × Nat × Nat) (block : List Nat) : Nat × Nat × Nat × Nat :=
  let m := leWords block
  let (a, b, c, d) := (List.range 64).foldl (md5Round m) st
  ((st.1 + a) % 4294967296, (st.2.1 + b) % 4294967296, (st.2.2.1 + c) % 4294967296,
    (st.2.2.2 + d) % 4294967296)

/-- Cut a padded message into `n` blocks of 64 bytes. -/
def chunks64 : Nat → List Nat → List (List Nat)
  | 0, _ => []
  | n + 1, l => if l.isEmpty then [] else l.take 64 :: chunks64 n (l.drop 64)

/-- Qt `QCryptographicHash(QCryptographicHash::Md5)`, `addData` then `result`: the MD5
digest (RFC 1321) of a byte sequence, 16 bytes. -/
def md5 (msg : List Nat) : List Nat :=
  let p := md5Pad msg
  let (a, b, c, d) := (chunks64 (p.length / 64) p).foldl md5Block
    (0x67452301, 0xefcdab89, 0x98badcfe, 0x10325476)
  leBytes 4 a ++ leBytes 4 b ++ leBytes 4 c ++ leBytes 4 d

/-- The base64 alphabet of `QByteArray::toBase64`. -/
def base64Alphabet : List Char :=
  "ABCDEFGHIJKLMNOPQRSTUVWXYZabcdefghijklmnopqrstuvwxyz0123456789+/".toList

/-- The character of a 6-bit value. -/
def base64Char (n : Nat) : Char := base64Alphabet.getD n '='

/-- Qt `QByteArray::toBase64` on the bytes of the array: three bytes make a 24-bit chunk
written as four characters, a short last group is padded with `=`. Shifts and masks
are written as multiplications, divisions and remainders. -/
def toBase64Chars : List Nat → List Char
  | [] => []
  | [a] =>
    let chunk := a % 256 * 65536
    [base64Char (chunk / 262144 % 64), base64Char (chunk / 4096 % 64), '=', '=']
  | [a, b] =>
    let chunk := a % 256 * 65536 + b % 256 * 256
    [base64Char (chunk / 262144 % 64), base64Char (chunk / 4096 % 64),
      base64Char (chunk / 64 % 64), '=']
  | a :: b :: c :: rest =>
    let chunk := a % 256 * 65536 + b % 256 * 256 + c % 256
    base64Char (chunk / 262144 % 64) :: base64Char (chunk / 4096 % 64) ::
      base64Char (chunk / 64 % 64) :: base64Char (chunk % 64) :: toBase64Chars rest

/-- Qt `QByteArray::toBase64`, assigned to a `QString`. -/
def toBase64 (bytes : List Nat) : String := String.mk (toBase64Chars bytes)

/-- The 6-bit value of a base64 character, as `QByteArray::fromBase64` reads it;
`none` for a character outside the alphabet (the padding `=` included). -/
def base64Digit (ch : Char) : Option Nat :=
  let n := ch.toNat
  if 65 ≤ n ∧ n ≤ 90 then some (n - 65)
  else if 97 ≤ n ∧ n ≤ 122 then some (n - 97 + 26)
  else if 48 ≤ n ∧ n ≤ 57 then some (n - 48 + 52)
  else if n = 43 then some 62
  else if n = 47 then some 63
  else none

/-- One character of `QByteArray::fromBase64`: the state is the bit buffer, the number
of bits it holds and the bytes written so far. -/
def fromBase64Step (st : Nat × Nat × List Nat) (ch : Char) : Nat × Nat × List Nat :=
  match base64Digit ch with
  | none => st
  | some d =>
    let buf := st.1 * 64 + d
    let nbits := st.2.1 + 6
    if 8 ≤ nbits then
      (buf % 2 ^ (nbits - 8), nbits - 8, st.2.2 ++ [buf / 2 ^ (nbits - 8) % 256])
    else (buf, nbits, st.2.2)

/-- Qt `QByteArray::fromBase64`: the decoding of a base64 text. -/
def fromBase64 (text : String) : List Nat :=
  (text.data.foldl fromBase64Step (0, 0, [])).2.2

/-! ## The protocol fingerprint -/

/-- The loop of lines 138-141 over a `uint8_t` counter; `version` is the version
resolver. The first argument bounds the number of iterations; `none` when it is
exhausted. -/
def versionsLoop (version : Nat → Nat) (numberOfProtocols : Nat) :
    Nat → Nat → List Nat → Option (List Nat)
  | 0, _, _ => none
  | fuel + 1, packetType, buffer =>
    if packetType < numberOfProtocols then
      versionsLoop version numberOfProtocols fuel ((packetType + 1) % 256)
        (QDataStream.writeUInt8 buffer (version packetType))
    else some buffer

/-- Lines 134-141: the buffer that is hashed, for a type count and a version resolver. -/
def versionsBuffer (numPacketType : Nat) (version : Nat → Nat) : Option (List Nat) :=
  let numberOfProtocols := numPacketType % 256
  versionsLoop version numberOfProtocols 257 0 (QDataStream.writeUInt8 [] numberOfProtocols)

/-- A build of the library: the enumeration, the version constants and whether
`PR_BUILD || DEV_BUILD` holds. -/
structure Build where
  types : PacketTypeEnum
  versions : VersionConstants
  debug : Bool

/-- The buffer of the build at hand: `NUM_PACKET_TYPE` and `versionForPacketType`. -/
def Build.buffer (B : Build) : Option (List Nat) :=
  versionsBuffer B.types.NUM_PACKET_TYPE (versionForPacketType B.types B.versions)

/-- The static variables of lines 122-132. `sendWrongProtocolVersion` exists in a PR or
DEV build only and is neither read nor written otherwise. `digestRuns` is a ghost counter
of the executions of the body passed to `std::call_once`. -/
structure State where
  sendWrongProtocolVersion : Bool
  once : Bool
  protocolVersionSignature : List Nat
  protocolVersionSignatureBase64 : String
  digestRuns : Nat
  deriving DecidableEq, Repr

/-- The state at process start. -/
def State.initial : State :=
  { sendWrongProtocolVersion := false, once := false, protocolVersionSignature := [],
    protocolVersionSignatureBase64 := "", digestRuns := 0 }

/-- The bytes of `QByteArray("INCORRECTVERSION")`. -/
def INCORRECTVERSION : List Nat := "INCORRECTVERSION".toList.map Char.toNat

/-- Function `sendWrongProtocolVersionsSignature` (lines 124-126). -/
def sendWrongProtocolVersionsSignature (sendWrongVersion : Bool) (s : State) : State :=
  { s with sendWrongProtocolVersion := sendWrongVersion }

/-- Function `ensureProtocolVersionsSignature` (lines 131-147). -/
def ensureProtocolVersionsSignature (B : Build) (s : State) : Option State :=
  if s.once then some s
  else
    match B.buffer with
    | none => none
    | some buffer =>
      let signature := md5 buffer
      some { s with
        once := true
        protocolVersionSignature := signature
        protocolVersionSignatureBase64 := toBase64 signature
        digestRuns := s.digestRuns + 1 }

/-- Function `protocolVersionsSignature` (lines 148-157): the returned bytes and the new
state. -/
def protocolVersionsSignature (B : Build) (s : State) : Option (List Nat × State) :=
  match ensureProtocolVersionsSignature B s with
  | none => none
  | some s1 =>
    if B.debug && s1.sendWrongProtocolVersion then some (INCORRECTVERSION, s1)
    else some (s1.protocolVersionSignature, s1)

/-- Function `protocolVersionsSignatureBase64` (lines 158-161). -/
def protocolVersionsSignatureBase64 (B : Build) (s : State) : Option (String × State) :=
  match ensureProtocolVersionsSignature B s with
  | none => none
  | some s1 => some (s1.protocolVersionSignatureBase64, s1)

/-- A call of one of the three public functions. The setter is compiled in a PR or DEV
build only. -/
inductive Call (B : Build)
  | sendWrong (h : B.debug = true) (sendWrongVersion : Bool)
  | signature
  | signatureBase64

/-- What a call returns. -/
inductive Result
  | unit
  | bytes (b : List Nat)
  | text (t : String)
  deriving DecidableEq, Repr

/-- One call, from a state. -/
def step (B : Build) (s : State) : Call B → Option (Result × State)
  | .sendWrong _ v => some (.unit, sendWrongProtocolVersionsSignature v s)
  | .signature => (protocolVersionsSignature B s).map (fun r => (.bytes r.1, r.2))
  | .signatureBase64 => (protocolVersionsSignatureBase64 B s).map (fun r => (.text r.1, r.2))

/-- A sequence of calls: the results in order and the final state. -/
def run (B : Build) : State → List (Call B) → Option (List Result × State)
  | s, [] => some ([], s)
  | s, c :: cs =>
    match step B s c with
    | none => none
    | some (r, s1) =>
      match run B s1 cs with
      | none => none
      | some (rs, s2) => some (r :: rs, s2)

/-- The argument of the most recent call of the setter, if there was one. -/
def lastSendWrong {B : Build} : List (Call B) → Option Bool
  | [] => none
  | c :: cs =>
    match lastSendWrong cs with
    | some v => some v
    | none =>
      match c with
      | .sendWrong _ v => some v
      | _ => none

/-- Whether a call is one of the two fingerprint accessors. -/
def Call.isAccessor {B : Build} : Call B → Bool
  | .sendWrong _ _ => false
  | _ => true

/-- The invariant of the cache, for a build that hashes `buffer`: before the first
request the body of `call_once` has not run; afterwards it has run once and the cache
holds the digest and its base64 text. -/
def State.Consistent (buffer : List Nat) (s : State) : Prop :=
  if s.once then
    s.protocolVersionSignature = md5 buffer ∧
      s.protocolVersionSignatureBase64 = toBase64 (md5 buffer) ∧ s.digestRuns = 1
  else s.digestRuns = 0

instance (buffer : List Nat) (s : State) : Decidable (s.Consistent buffer) := by
  unfold State.Consistent; infer_instance

/-! ## A sample header, to instantiate the parameters -/

/-- A sample enumeration: the named enumerators numbered in the order of their
first mention, and nothing else. -/
def sampleTypes : PacketTypeEnum :=
  { code := fun n => n.toCtorIdx, NUM_PACKET_TYPE := 61 }

/-- Sample values for the named version constants. -/
def sampleVersions : VersionConstants :=
  { DomainListVersion_GetMachineFingerprintFromUUIDSupport := 21
    VERSION_ENTITIES_BULLET_DYNAMICS := 74
    EntityQueryPacketVersion_JSONFilterWithFamilyTree := 19
    AvatarMixerPacketVersion_IsReplicatedInAvatarIdentity := 32
    MessageDataVersion_TextOrBinaryData := 18
    AssetServerPacketVersion_RangeRequestSupport := 20
    DomainConnectionDeniedVersion_IncludesExtraInfo := 19
    DomainConnectRequestVersion_HasMachineFingerprint := 21
    DomainServerAddedNodeVersion_PermissionsGrid := 18
    AudioVersion_HighDynamicRangeVolume := 23 }

/-- A production build of the sample header. -/
def sampleRelease : Build := { types := sampleTypes, versions := sampleVersions, debug := false }

/-- A PR or DEV build of the sample header. -/
def sampleDebug : Build := { types := sampleTypes, versions := sampleVersions, debug := true }

/-! ## Lemmas on the containers and the tables -/

section TableLemmas
open PacketTypeName

theorem QSet.mem_insert (s : List Nat) (x y : Nat) :
    y ∈ QSet.insert s x ↔ y = x ∨ y ∈ s := by
  unfold QSet.insert
  split_ifs with h
  · constructor
    · exact Or.inr
    · rintro (rfl | h2)
      · exact h
      · exact h2
  · simp [or_comm]

theorem QSet.mem_foldl_insert (E : PacketTypeEnum) (l : List PacketTypeName) (s : List Nat)
    (y : Nat) :
    y ∈ l.foldl (fun s n => QSet.insert s (E.code n)) s ↔ y ∈ s ∨ ∃ n ∈ l, y = E.code n := by
  induction l generalizing s with
  | nil => simp
  | cons a l ih =>
    rw [List.foldl_cons, ih, QSet.mem_insert]
    simp only [List.mem_cons, exists_eq_or_imp]
    tauto

theorem QHash.find_map_ne (h : List (Nat × Nat)) (k v k2 : Nat) (hk : k2 ≠ k) :
    QHash.find (h.map (fun e => if e.1 == k then (k, v) else e)) k2 = QHash.find h k2 := by
  induction h with
  | nil => rfl
  | cons e h ih =>
    unfold QHash.find at ih ⊢
    rw [List.map_cons, List.find?_cons, List.find?_cons]
    by_cases he : e.1 = k
    · have h1 : (e.1 == k) = true := by simpa using he
      have h2 : (k == k2) = false := by simpa using (Ne.symm hk)
      have h3 : (e.1 == k2) = false := by rw [he]; exact h2
      simp only [h1, if_true, h2, h3]
      exact ih
    · have h1 : (e.1 == k) = false := by simpa using he
      simp only [h1]
      cases hc : (e.1 == k2)
      · simpa [hc] using ih
      · simp [hc]

theorem QHash.find_map_eq (h : List (Nat × Nat)) (k v : Nat)
    (hany : h.any (fun e => e.1 == k) = true) :
    QHash.find (h.map (fun e => if e.1 == k then (k, v) else e)) k = some v := by
  induction h with
  | nil => simp at hany
  | cons e h ih =>
    unfold QHash.find at ih ⊢
    rw [List.map_cons, List.find?_cons]
    by_cases he : e.1 = k
    · have h1 : (e.1 == k) = true := by simpa using he
      simp [h1]
    · have h1 : (e.1 == k) = false := by simpa using he
      have h2 : h.any (fun e => e.1 == k) = true := by
        simpa [List.any_cons, h1] using hany
      simp only [h1]
      simpa [h1] using ih h2

theorem QHash.find_append (h : List (Nat × Nat)) (k v k2 : Nat)
    (hany : h.any (fun e => e.1 == k) = false) :
    QHash.find (h ++ [(k, v)]) k2 = if k2 = k then some v else QHash.find h k2 := by
  induction h with
  | nil =>
    by_cases hk : k2 = k
    · subst hk; simp [QHash.find]
    · have h2 : (k == k2) = false := by simpa using (Ne.symm hk)
      simp [QHash.find, hk, h2]
  | cons e h ih =>
    rw [List.any_cons, Bool.or_eq_false_iff] at hany
    have ih2 := ih hany.2
    unfold QHash.find at ih2 ⊢
    rw [List.cons_append, List.find?_cons, List.find?_cons]
    cases hc : (e.1 == k2)
    · simpa using ih2
    · have h1 : e.1 = k2 := by simpa using hc
      have h3 : ¬ k2 = k := by
        intro h4
        have := hany.1
        rw [h1, h4] at this
        simp at this
      simp [h3]

/-- Looking a key up after an insertion: the inserted key yields the inserted value,
any other key what it yielded before. -/
theorem QHash.find_insert (h : List (Nat × Nat)) (k v k2 : Nat) :
    QHash.find (QHash.insert h k v) k2 = if k2 = k then some v else QHash.find h k2 := by
  unfold QHash.insert
  cases hany : h.any (fun e => e.1 == k)
  · simpa using QHash.find_append h k v k2 hany
  · by_cases hk : k2 = k
    · subst hk
      simpa using QHash.find_map_eq h k2 v hany
    · simpa [hk] using QHash.find_map_ne h k v k2 hk

/-- The lookup in `REPLICATED_PACKET_MAPPING`, entry by entry (the last insertion is
the first to be met). -/
theorem replicaFor_eq (E : PacketTypeEnum) (t : Nat) :
    replicaFor E t =
      if t = E.code BulkAvatarData then some (E.code ReplicatedBulkAvatarData)
      else if t = E.code KillAvatar then some (E.code ReplicatedKillAvatar)
      else if t = E.code AvatarIdentity then some (E.code ReplicatedAvatarIdentity)
      else if t = E.code SilentAudioFrame then some (E.code ReplicatedSilentAudioFrame)
      else if t = E.code InjectAudio then some (E.code ReplicatedInjectAudio)
      else if t = E.code MicrophoneAudioWithEcho then
        some (E.code ReplicatedMicrophoneAudioWithEcho)
      else if t = E.code MicrophoneAudioNoEcho then
        some (E.code ReplicatedMicrophoneAudioNoEcho)
      else none := by
  simp only [replicaFor, REPLICATED_PACKET_MAPPING, QHash.ofList, replicatedPairs, List.map,
    List.foldl, QHash.find_insert]
  rfl

/-- An entry of the mapping is one of the seven pairs of the initializer list. -/
theorem replicaFor_some (E : PacketTypeEnum) (t r : Nat) (h : replicaFor E t = some r) :
    ∃ p ∈ replicatedPairs, t = E.code p.1 ∧ r = E.code p.2 := by
  rw [replicaFor_eq] at h
  simp only [replicatedPairs, List.mem_cons, List.mem_singleton, exists_eq_or_imp,
    List.not_mem_nil, false_and, exists_false, or_false]
  split_ifs at h with h1 h2 h3 h4 h5 h6 h7 <;> simp only [Option.some.injEq] at h <;>
    first
    | exact absurd h (by simp)
    | (subst h; tauto)

theorem mem_NON_VERIFIED_PACKETS (E : PacketTypeEnum) (t : Nat) :
    t ∈ NON_VERIFIED_PACKETS E ↔
      ∃ n ∈ [ NodeJsonStats, EntityQuery, OctreeDataNack, EntityEditNack, DomainListRequest,
        StopNode, DomainDisconnectRequest, UsernameFromIDRequest, NodeKickRequest,
        NodeMuteRequest ], t = E.code n := by
  unfold NON_VERIFIED_PACKETS
  rw [QSet.mem_foldl_insert]
  simp only [List.not_mem_nil, false_or]

theorem mem_NON_SOURCED_PACKETS (E : PacketTypeEnum) (t : Nat) :
    t ∈ NON_SOURCED_PACKETS E ↔
      ∃ n ∈ [ StunResponse, CreateAssignment, RequestAssignment,
        DomainServerRequireDTLS, DomainConnectRequest, DomainList, DomainConnectionDenied,
        DomainServerPathQuery, DomainServerPathResponse, DomainServerAddedNode,
        DomainServerConnectionToken, DomainSettingsRequest, DomainSettings,
        ICEServerPeerInformation, ICEServerQuery, ICEServerHeartbeat,
        ICEServerHeartbeatACK, ICEPing, ICEPingReply, ICEServerHeartbeatDenied,
        AssignmentClientStatus, StopNode, DomainServerRemovedNode, UsernameFromIDReply,
        OctreeFileReplacement, ReplicatedMicrophoneAudioNoEcho,
        ReplicatedMicrophoneAudioWithEcho, ReplicatedInjectAudio,
        ReplicatedSilentAudioFrame, ReplicatedAvatarIdentity, ReplicatedKillAvatar,
        ReplicatedBulkAvatarData, OctreeFileReplacementFromUrl ], t = E.code n := by
  unfold NON_SOURCED_PACKETS
  rw [QSet.mem_foldl_insert]
  simp only [List.not_mem_nil, false_or]

theorem le_ite_of_le (b : Nat) (c : Prop) [Decidable c] (x y : Nat) (hx : b ≤ x)
    (hy : b ≤ y) : b ≤ (if c then x else y) := by
  split <;> assumption

/-- The sample enumeration is well formed. -/
theorem sampleTypes_wellFormed : sampleTypes.WellFormed where
  code_injective := by
    intro a b h
    have := congrArg PacketTypeName.ofNat h
    simpa [sampleTypes, PacketTypeName.ofNat_toCtorIdx] using this
  code_lt := by intro n; cases n <;> decide
  num_le := by decide

end TableLemmas

/-! ## The version resolver and the classification tables -/

section TableTheorems
open PacketTypeName

/-- C4: for every valid type code `t < NUM_PACKET_TYPE`, `versionForPacketType t` is defined
and at least the baseline 17, whichever arm of the switch returns it: the default, a
literal 18, or a named constant (a one-byte value no lower than the baseline). -/
theorem versionForPacketType_ge_baseline (E : PacketTypeEnum) (V : VersionConstants)
    (hV : V.NeverBelowBaseline) (t : Nat) (_ht : t < E.NUM_PACKET_TYPE) :
    ∃ v, versionForPacketType E V t = v ∧ BASELINE_VERSION ≤ v := by
  refine ⟨_, rfl, ?_⟩
  have h : ∀ v ∈ V.all, 17 ≤ castPacketVersion v := by
    intro v hv
    obtain ⟨a, b⟩ := hV v hv
    have a2 : 17 ≤ v := a
    unfold castPacketVersion; omega
  simp only [VersionConstants.all, List.forall_mem_cons] at h
  obtain ⟨h1, h2, h3, h4, h5, h6, h7, h8, h9, h10, -⟩ := h
  show 17 ≤ versionForPacketType E V t
  unfold versionForPacketType
  repeat' first
    | assumption
    | exact (by decide : 17 ≤ 18)
    | exact le_refl 17
    | apply le_ite_of_le

theorem versionForPacketType_ge_baseline_witness :
    sampleVersions.NeverBelowBaseline ∧ 15 < sampleTypes.NUM_PACKET_TYPE ∧
      ∃ v, versionForPacketType sampleTypes sampleVersions 15 = v ∧ BASELINE_VERSION ≤ v :=
  ⟨by decide, by decide,
    versionForPacketType_ge_baseline sampleTypes sampleVersions (by decide) 15 (by decide)⟩

/-- C5: `REPLICATED_PACKET_MAPPING` is injective on its domain: two types with the same
replica are the same type, and the seven replica types listed as values are pairwise
distinct. -/
theorem replicaFor_injective (E : PacketTypeEnum) (hE : Function.Injective E.code) :
    (∀ a b r, replicaFor E a = some r → replicaFor E b = some r → a = b) ∧
      (replicatedPairs.map (fun p => E.code p.2)).Nodup := by
  constructor
  · intro a b r ha hb
    obtain ⟨p, hp, rfl, rfl⟩ := replicaFor_some E a r ha
    obtain ⟨q, hq, rfl, hqr⟩ := replicaFor_some E b _ hb
    have h2 : p.2 = q.2 := hE hqr
    simp only [replicatedPairs, List.mem_cons, List.mem_singleton, List.not_mem_nil,
      or_false] at hp hq
    rcases hp with rfl | rfl | rfl | rfl | rfl | rfl | rfl <;>
      rcases hq with rfl | rfl | rfl | rfl | rfl | rfl | rfl <;>
      first
      | rfl
      | exact absurd h2 (by decide)
  · have : (replicatedPairs.map (fun p => E.code p.2))
        = (replicatedPairs.map Prod.snd).map E.code := by simp [List.map_map]
    rw [this]
    exact List.Nodup.map hE (by decide)

theorem replicaFor_injective_witness :
    Function.Injective sampleTypes.code ∧
      (∀ a b r, replicaFor sampleTypes a = some r → replicaFor sampleTypes b = some r → a = b) ∧
      (replicatedPairs.map (fun p => sampleTypes.code p.2)).Nodup :=
  ⟨sampleTypes_wellFormed.code_injective,
    replicaFor_injective sampleTypes sampleTypes_wellFormed.code_injective⟩

end TableTheorems

section TableTheorems2
open PacketTypeName

/-- C6: the domain and the codomain of `REPLICATED_PACKET_MAPPING` are disjoint: when
`replicaFor t = some r`, the replica `r` is not a key (`replicaFor r = none`) and `r ≠ t`. -/
theorem replicaFor_domain_codomain_disjoint (E : PacketTypeEnum)
    (hE : Function.Injective E.code) (t r : Nat) (h : replicaFor E t = some r) :
    replicaFor E r = none ∧ r ≠ t := by
  obtain ⟨p, hp, rfl, rfl⟩ := replicaFor_some E t r h
  have hnone : replicaFor E (E.code p.2) = none := by
    rw [replicaFor_eq]
    simp only [replicatedPairs, List.mem_cons, List.mem_singleton, List.not_mem_nil,
      or_false] at hp
    rcases hp with rfl | rfl | rfl | rfl | rfl | rfl | rfl <;> simp [hE.eq_iff]
  refine ⟨hnone, ?_⟩
  intro heq
  rw [heq, h] at hnone
  exact absurd hnone (by simp)

theorem replicaFor_domain_codomain_disjoint_witness :
    Function.Injective sampleTypes.code ∧ replicaFor sampleTypes 46 = some 38 ∧
      replicaFor sampleTypes 38 = none ∧ 38 ≠ 46 :=
  ⟨sampleTypes_wellFormed.code_injective, by decide,
    replicaFor_domain_codomain_disjoint sampleTypes sampleTypes_wellFormed.code_injective
      46 38 (by decide)⟩

/-- C8: a code that is no packet type (the code `NUM_PACKET_TYPE`, one past the last
valid code, any larger code, or any code no named enumerator has) gets the fallback of
every lookup: the default version 17, membership in neither `NON_VERIFIED_PACKETS` nor
`NON_SOURCED_PACKETS`, and no entry in `REPLICATED_PACKET_MAPPING`. -/
theorem unknown_type_code_fallback (E : PacketTypeEnum) (V : VersionConstants)
    (hE : E.WellFormed) (t : Nat)
    (ht : E.NUM_PACKET_TYPE ≤ t ∨ ∀ n, E.code n ≠ t) :
    versionForPacketType E V t = 17 ∧
      QSet.contains (NON_VERIFIED_PACKETS E) t = false ∧
      QSet.contains (NON_SOURCED_PACKETS E) t = false ∧
      replicaFor E t = none := by
  have hne : ∀ n, ¬ t = E.code n := by
    intro n hn
    rcases ht with ht | ht
    · have := hE.code_lt n
      omega
    · exact ht n hn.symm
  refine ⟨?_, ?_, ?_, ?_⟩
  · unfold versionForPacketType
    simp only [hne, or_self, if_false]
  · simp only [QSet.contains, decide_eq_false_iff_not, mem_NON_VERIFIED_PACKETS]
    rintro ⟨n, -, hn⟩
    exact hne n hn
  · simp only [QSet.contains, decide_eq_false_iff_not, mem_NON_SOURCED_PACKETS]
    rintro ⟨n, -, hn⟩
    exact hne n hn
  · rw [replicaFor_eq]
    simp only [hne, if_false]

theorem unknown_type_code_fallback_witness :
    sampleTypes.WellFormed ∧
      (sampleTypes.NUM_PACKET_TYPE ≤ 61 ∨ ∀ n, sampleTypes.code n ≠ 61) ∧
      versionForPacketType sampleTypes sampleVersions 61 = 17 ∧
      QSet.contains (NON_VERIFIED_PACKETS sampleTypes) 61 = false ∧
      QSet.contains (NON_SOURCED_PACKETS sampleTypes) 61 = false ∧
      replicaFor sampleTypes 61 = none :=
  ⟨sampleTypes_wellFormed, Or.inl (by decide),
    unknown_type_code_fallback sampleTypes sampleVersions sampleTypes_wellFormed 61
      (Or.inl (by decide))⟩

/-- C10: classification is not inherited along `REPLICATED_PACKET_MAPPING`: for every
entry (live, replica), the replica is in `NON_SOURCED_PACKETS` and the live type is not,
and neither of them is in `NON_VERIFIED_PACKETS`. -/
theorem replicated_pairs_classification (E : PacketTypeEnum)
    (hE : Function.Injective E.code) (live replica : Nat)
    (h : replicaFor E live = some replica) :
    QSet.contains (NON_SOURCED_PACKETS E) replica = true ∧
      QSet.contains (NON_SOURCED_PACKETS E) live = false ∧
      QSet.contains (NON_VERIFIED_PACKETS E) live = false ∧
      QSet.contains (NON_VERIFIED_PACKETS E) replica = false := by
  obtain ⟨p, hp, rfl, rfl⟩ := replicaFor_some E live replica h
  simp only [replicatedPairs, List.mem_cons, List.mem_singleton, List.not_mem_nil,
    or_false] at hp
  simp only [QSet.contains, decide_eq_false_iff_not, decide_eq_true_eq,
    mem_NON_VERIFIED_PACKETS, mem_NON_SOURCED_PACKETS, hE.eq_iff]
  rcases hp with rfl | rfl | rfl | rfl | rfl | rfl | rfl <;> simp

theorem replicated_pairs_classification_witness :
    Function.Injective sampleTypes.code ∧ replicaFor sampleTypes 46 = some 38 ∧
      QSet.contains (NON_SOURCED_PACKETS sampleTypes) 38 = true ∧
      QSet.contains (NON_SOURCED_PACKETS sampleTypes) 46 = false ∧
      QSet.contains (NON_VERIFIED_PACKETS sampleTypes) 46 = false ∧
      QSet.contains (NON_VERIFIED_PACKETS sampleTypes) 38 = false :=
  ⟨sampleTypes_wellFormed.code_injective, by decide,
    replicated_pairs_classification sampleTypes sampleTypes_wellFormed.code_injective
      46 38 (by decide)⟩

end TableTheorems2

/-! ## The hashed buffer -/

section Buffer

theorem versionsLoop_eq (version : Nat → Nat) (n : Nat) (hn : n ≤ 255) :
    ∀ (k fuel packetType : Nat) (buffer : List Nat), packetType + k = n → k < fuel →
      versionsLoop version n fuel packetType buffer =
        some (buffer ++ (List.range' packetType k).map (fun c => version c % 256)) := by
  intro k
  induction k with
  | zero =>
    intro fuel packetType buffer hk hf
    obtain ⟨f, rfl⟩ : ∃ f, fuel = f + 1 := ⟨fuel - 1, by omega⟩
    have : ¬ packetType < n := by omega
    simp [versionsLoop, this]
  | succ k ih =>
    intro fuel packetType buffer hk hf
    obtain ⟨f, rfl⟩ : ∃ f, fuel = f + 1 := ⟨fuel - 1, by omega⟩
    have hlt : packetType < n := by omega
    have hmod : (packetType + 1) % 256 = packetType + 1 := Nat.mod_eq_of_lt (by omega)
    rw [versionsLoop, if_pos hlt, hmod, ih f (packetType + 1) _ (by omega) (by omega)]
    simp [QDataStream.writeUInt8, List.range'_succ]

/-- The buffer of lines 134-141: the count, then the versions of the codes in
ascending order, each on one byte. -/
theorem versionsBuffer_eq (numPacketType : Nat) (version : Nat → Nat) :
    versionsBuffer numPacketType version =
      some (numPacketType % 256 ::
        (List.range (numPacketType % 256)).map (fun c => version c % 256)) := by
  have hn : numPacketType % 256 ≤ 255 := by omega
  unfold versionsBuffer
  simp only []
  rw [versionsLoop_eq version _ hn (numPacketType % 256) 257 0 _ (by omega) (by omega)]
  simp [QDataStream.writeUInt8, List.range_eq_range']

theorem castPacketVersion_lt (x : Nat) : castPacketVersion x < 256 := by
  unfold castPacketVersion; omega

theorem lt_ite_of_lt (b : Nat) (c : Prop) [Decidable c] (x y : Nat) (hx : x < b)
    (hy : y < b) : (if c then x else y) < b := by
  split <;> assumption

/-- A packet version is one byte. -/
theorem versionForPacketType_lt (E : PacketTypeEnum) (V : VersionConstants) (t : Nat) :
    versionForPacketType E V t < 256 := by
  unfold versionForPacketType
  repeat' first
    | exact castPacketVersion_lt _
    | exact (by decide : 18 < 256)
    | exact (by decide : 17 < 256)
    | apply lt_ite_of_lt

/-- The buffer of a build. -/
theorem Build.buffer_eq (B : Build) :
    B.buffer = some (B.types.NUM_PACKET_TYPE % 256 ::
      (List.range (B.types.NUM_PACKET_TYPE % 256)).map
        (versionForPacketType B.types B.versions)) := by
  unfold Build.buffer
  rw [versionsBuffer_eq]
  congr 2
  apply List.map_congr_left
  intro c _
  exact Nat.mod_eq_of_lt (versionForPacketType_lt _ _ _)

end Buffer

/-! ## MD5 test vectors -/

/-- The digests RFC 1321 lists for the empty message and for the message abc. -/
theorem md5_test_vectors :
    md5 [] = [0xd4, 0x1d, 0x8c, 0xd9, 0x8f, 0x00, 0xb2, 0x04,
      0xe9, 0x80, 0x09, 0x98, 0xec, 0xf8, 0x42, 0x7e] ∧
    md5 [97, 98, 99] = [0x90, 0x01, 0x50, 0x98, 0x3c, 0xd2, 0x4f, 0xb0,
      0xd6, 0x96, 0x3f, 0x7d, 0x28, 0xe1, 0x7f, 0x72] := by
  constructor
  · decide!
  · decide!

/-! ## Base64 -/

section Base64

theorem base64Digit_base64Char : ∀ n, n < 64 → base64Digit (base64Char n) = some n := by
  decide

theorem base64Digit_pad : base64Digit '=' = none := by
  decide

theorem fromBase64Step_pad (st : Nat × Nat × List Nat) : fromBase64Step st '=' = st := by
  simp only [fromBase64Step, base64Digit_pad]

theorem fromBase64Step_bits0 (out : List Nat) (n : Nat) (hn : n < 64) :
    fromBase64Step (0, 0, out) (base64Char n) = (n, 6, out) := by
  simp [fromBase64Step, base64Digit_base64Char n hn]

theorem fromBase64Step_bits6 (buf : Nat) (out : List Nat) (n : Nat) (hn : n < 64) :
    fromBase64Step (buf, 6, out) (base64Char n) =
      ((buf * 64 + n) % 16, 4, out ++ [(buf * 64 + n) / 16 % 256]) := by
  simp [fromBase64Step, base64Digit_base64Char n hn]

theorem fromBase64Step_bits4 (buf : Nat) (out : List Nat) (n : Nat) (hn : n < 64) :
    fromBase64Step (buf, 4, out) (base64Char n) =
      ((buf * 64 + n) % 4, 2, out ++ [(buf * 64 + n) / 4 % 256]) := by
  simp [fromBase64Step, base64Digit_base64Char n hn]

theorem fromBase64Step_bits2 (buf : Nat) (out : List Nat) (n : Nat) (hn : n < 64) :
    fromBase64Step (buf, 2, out) (base64Char n) =
      (0, 0, out ++ [(buf * 64 + n) % 256]) := by
  simp [fromBase64Step, base64Digit_base64Char n hn, Nat.mod_one]

theorem fromBase64_three (a b c : Nat) (out : List Nat) (rest : List Nat) :
    (toBase64Chars (a :: b :: c :: rest)).foldl fromBase64Step (0, 0, out) =
      (toBase64Chars rest).foldl fromBase64Step (0, 0, out ++ [a % 256, b % 256, c % 256]) := by
  have h64 : ∀ x : Nat, x % 64 < 64 := fun x => Nat.mod_lt _ (by decide)
  simp only [toBase64Chars, List.foldl_cons]
  rw [fromBase64Step_bits0 _ _ (h64 _), fromBase64Step_bits6 _ _ _ (h64 _),
    fromBase64Step_bits4 _ _ _ (h64 _), fromBase64Step_bits2 _ _ _ (h64 _)]
  have e1 : ((a % 256 * 65536 + b % 256 * 256 + c % 256) / 262144 % 64 * 64 +
      (a % 256 * 65536 + b % 256 * 256 + c % 256) / 4096 % 64) / 16 % 256 = a % 256 := by
    omega
  have e2 : (((a % 256 * 65536 + b % 256 * 256 + c % 256) / 262144 % 64 * 64 +
      (a % 256 * 65536 + b % 256 * 256 + c % 256) / 4096 % 64) % 16 * 64 +
      (a % 256 * 65536 + b % 256 * 256 + c % 256) / 64 % 64) / 4 % 256 = b % 256 := by
    omega
  have e3 : ((((a % 256 * 65536 + b % 256 * 256 + c % 256) / 262144 % 64 * 64 +
      (a % 256 * 65536 + b % 256 * 256 + c % 256) / 4096 % 64) % 16 * 64 +
      (a % 256 * 65536 + b % 256 * 256 + c % 256) / 64 % 64) % 4 * 64 +
      (a % 256 * 65536 + b % 256 * 256 + c % 256) % 64) % 256 = c % 256 := by
    omega
  rw [e1, e2, e3]
  simp only [List.append_assoc, List.cons_append, List.nil_append]

theorem fromBase64_two (a b : Nat) (out : List Nat) :
    ((toBase64Chars [a, b]).foldl fromBase64Step (0, 0, out)).2.2 =
      out ++ [a % 256, b % 256] := by
  have h64 : ∀ x : Nat, x % 64 < 64 := fun x => Nat.mod_lt _ (by decide)
  simp only [toBase64Chars, List.foldl_cons, List.foldl_nil]
  rw [fromBase64Step_bits0 _ _ (h64 _), fromBase64Step_bits6 _ _ _ (h64 _),
    fromBase64Step_bits4 _ _ _ (h64 _), fromBase64Step_pad]
  have e1 : ((a % 256 * 65536 + b % 256 * 256) / 262144 % 64 * 64 +
      (a % 256 * 65536 + b % 256 * 256) / 4096 % 64) / 16 % 256 = a % 256 := by
    omega
  have e2 : (((a % 256 * 65536 + b % 256 * 256) / 262144 % 64 * 64 +
      (a % 256 * 65536 + b % 256 * 256) / 4096 % 64) % 16 * 64 +
      (a % 256 * 65536 + b % 256 * 256) / 64 % 64) / 4 % 256 = b % 256 := by
    omega
  rw [e1, e2]
  simp only [List.append_assoc, List.cons_append, List.nil_append]

theorem fromBase64_one (a : Nat) (out : List Nat) :
    ((toBase64Chars [a]).foldl fromBase64Step (0, 0, out)).2.2 = out ++ [a % 256] := by
  have h64 : ∀ x : Nat, x % 64 < 64 := fun x => Nat.mod_lt _ (by decide)
  simp only [toBase64Chars, List.foldl_cons, List.foldl_nil]
  rw [fromBase64Step_bits0 _ _ (h64 _), fromBase64Step_bits6 _ _ _ (h64 _),
    fromBase64Step_pad, fromBase64Step_pad]
  have e1 : ((a % 256 * 65536) / 262144 % 64 * 64 +
      (a % 256 * 65536) / 4096 % 64) / 16 % 256 = a % 256 := by
    omega
  rw [e1]

theorem fromBase64_foldl : ∀ (n : Nat) (bytes out : List Nat), bytes.length ≤ n →
    ((toBase64Chars bytes).foldl fromBase64Step (0, 0, out)).2.2 =
      out ++ bytes.map (fun x => x % 256) := by
  intro n
  induction n using Nat.strong_induction_on with
  | _ n ih =>
    intro bytes out hlen
    match bytes, hlen with
    | [], _ => simp [toBase64Chars]
    | [a], _ => simpa using fromBase64_one a out
    | [a, b], _ => simpa using fromBase64_two a b out
    | a :: b :: c :: rest, hlen =>
      rw [fromBase64_three]
      have hl : rest.length ≤ n - 3 := by
        simp only [List.length_cons] at hlen; omega
      rw [ih (n - 3) (by simp only [List.length_cons] at hlen; omega) rest _ hl]
      simp

/-- Decoding the base64 text of a byte sequence gives the sequence back. -/
theorem fromBase64_toBase64 (bytes : List Nat) (h : ∀ x ∈ bytes, x < 256) :
    fromBase64 (toBase64 bytes) = bytes := by
  unfold fromBase64 toBase64
  rw [fromBase64_foldl bytes.length bytes [] (le_refl _)]
  simp only [List.nil_append]
  conv_rhs => rw [← List.map_id bytes]
  apply List.map_congr_left
  intro x hx
  exact Nat.mod_eq_of_lt (h x hx)

theorem leBytes_lt (k x : Nat) : ∀ y ∈ leBytes k x, y < 256 := by
  intro y hy
  simp only [leBytes, List.mem_map] at hy
  obtain ⟨i, -, rfl⟩ := hy
  exact Nat.mod_lt _ (by decide)

/-- A digest is a sequence of bytes. -/
theorem md5_lt (msg : List Nat) : ∀ y ∈ md5 msg, y < 256 := by
  intro y hy
  simp only [md5, List.mem_append] at hy
  rcases hy with ((hy | hy) | hy) | hy <;> exact leBytes_lt _ _ y hy

end Base64

/-! ## The cache -/

section Cache

theorem State.initial_consistent (buffer : List Nat) : State.initial.Consistent buffer := by
  simp [State.Consistent, State.initial]

theorem ensureProtocolVersionsSignature_spec (B : Build) (buffer : List Nat)
    (hb : B.buffer = some buffer) (s : State) (hs : s.Consistent buffer) :
    ∃ s1, ensureProtocolVersionsSignature B s = some s1 ∧ s1.once = true ∧
      s1.protocolVersionSignature = md5 buffer ∧
      s1.protocolVersionSignatureBase64 = toBase64 (md5 buffer) ∧
      s1.digestRuns = 1 ∧ s1.sendWrongProtocolVersion = s.sendWrongProtocolVersion ∧
      (s.once = true → s1 = s) := by
  unfold ensureProtocolVersionsSignature
  by_cases ho : s.once = true
  · simp only [State.Consistent, ho, if_true] at hs
    exact ⟨s, by simp [ho], ho, hs.1, hs.2.1, hs.2.2, rfl, fun _ => rfl⟩
  · simp only [State.Consistent, ho] at hs
    simp only [ho, hb]
    refine ⟨_, rfl, rfl, rfl, rfl, ?_, rfl, fun h => absurd h (by simp)⟩
    simp only [Bool.false_eq_true, if_false] at hs
    simp [hs]

theorem consistent_of_once (buffer : List Nat) (s : State) (h1 : s.once = true)
    (h2 : s.protocolVersionSignature = md5 buffer)
    (h3 : s.protocolVersionSignatureBase64 = toBase64 (md5 buffer))
    (h4 : s.digestRuns = 1) : s.Consistent buffer := by
  simp [State.Consistent, h1, h2, h3, h4]

/-- What a call does, from a consistent state. -/
theorem step_spec (B : Build) (buffer : List Nat) (hb : B.buffer = some buffer)
    (s : State) (hs : s.Consistent buffer) (c : Call B) :
    ∃ r s1, step B s c = some (r, s1) ∧ s1.Consistent buffer ∧
      s1.once = (s.once || c.isAccessor) ∧
      s1.sendWrongProtocolVersion =
        (match c with
          | .sendWrong _ v => v
          | _ => s.sendWrongProtocolVersion) ∧
      (match c with
        | .sendWrong _ _ => r = .unit
        | .signature => r = .bytes
            (if B.debug && s.sendWrongProtocolVersion then INCORRECTVERSION else md5 buffer)
        | .signatureBase64 => r = .text (toBase64 (md5 buffer))) := by
  cases c with
  | sendWrong h v =>
    refine ⟨.unit, _, rfl, ?_, ?_, rfl, rfl⟩
    · simpa [State.Consistent, sendWrongProtocolVersionsSignature] using hs
    · simp [sendWrongProtocolVersionsSignature, Call.isAccessor]
  | signature =>
    obtain ⟨s1, h1, h2, h3, h4, h5, h6, -⟩ :=
      ensureProtocolVersionsSignature_spec B buffer hb s hs
    refine ⟨.bytes (if B.debug && s.sendWrongProtocolVersion then INCORRECTVERSION
      else md5 buffer), s1, ?_, consistent_of_once buffer s1 h2 h3 h4 h5, ?_, h6, rfl⟩
    · simp only [step, protocolVersionsSignature, h1, h6, h3]
      split <;> rfl
    · simp [h2, Call.isAccessor]
  | signatureBase64 =>
    obtain ⟨s1, h1, h2, h3, h4, h5, h6, -⟩ :=
      ensureProtocolVersionsSignature_spec B buffer hb s hs
    refine ⟨.text (toBase64 (md5 buffer)), s1, ?_, consistent_of_once buffer s1 h2 h3 h4 h5,
      ?_, h6, rfl⟩
    · simp only [step, protocolVersionsSignatureBase64, h1, h4]
      rfl
    · simp [h2, Call.isAccessor]

end Cache

section Runs

/-- What a sequence of calls does, from a consistent state. -/
theorem run_spec (B : Build) (buffer : List Nat) (hb : B.buffer = some buffer) :
    ∀ (ops : List (Call B)) (s : State), s.Consistent buffer →
      ∃ rs s1, run B s ops = some (rs, s1) ∧ s1.Consistent buffer ∧
        s1.once = (s.once || ops.any Call.isAccessor) ∧
        s1.sendWrongProtocolVersion = (lastSendWrong ops).getD s.sendWrongProtocolVersion ∧
        (∀ t, Result.text t ∈ rs → t = toBase64 (md5 buffer)) ∧
        (∀ b, Result.bytes b ∈ rs → b = md5 buffer ∨ (B.debug = true ∧ b = INCORRECTVERSION)) ∧
        (s.sendWrongProtocolVersion = false → (∀ h, Call.sendWrong h true ∉ ops) →
          ∀ b, Result.bytes b ∈ rs → b = md5 buffer) := by
  intro ops
  induction ops with
  | nil =>
    intro s hs
    exact ⟨[], s, rfl, hs, by simp, by simp [lastSendWrong], by simp, by simp, by simp⟩
  | cons c cs ih =>
    intro s hs
    obtain ⟨r, s1, hstep, hs1, honce, hflag, hr⟩ := step_spec B buffer hb s hs c
    obtain ⟨rs, s2, hrun, hs2, honce2, hflag2, htext, hbytes, hsame⟩ := ih s1 hs1
    refine ⟨r :: rs, s2, ?_, hs2, ?_, ?_, ?_, ?_, ?_⟩
    · simp only [run, hstep, hrun]
    · rw [honce2, honce, List.any_cons, Bool.or_assoc]
    · rw [hflag2, hflag]
      simp only [lastSendWrong]
      cases lastSendWrong cs with
      | some v => rfl
      | none => cases c <;> rfl
    · intro t ht
      rcases List.mem_cons.mp ht with h | h
      · cases c with
        | sendWrong h1 v => simp only [hr] at h; cases h
        | signature => simp only [hr] at h; cases h
        | signatureBase64 =>
          simp only [hr] at h
          injection h
      · exact htext t h
    · intro b hbm
      rcases List.mem_cons.mp hbm with h | h
      · cases c with
        | sendWrong h1 v => simp only [hr] at h; cases h
        | signature =>
          simp only [hr] at h
          injection h with h
          subst h
          by_cases hd : (B.debug && s.sendWrongProtocolVersion) = true
          · rw [if_pos hd]
            right
            exact ⟨(Bool.and_eq_true_iff.mp hd).1, rfl⟩
          · rw [if_neg hd]
            left; rfl
        | signatureBase64 => simp only [hr] at h; cases h
      · exact hbytes b h
    · intro hfalse hno b hbm
      rcases List.mem_cons.mp hbm with h | h
      · cases c with
        | sendWrong h1 v => simp only [hr] at h; cases h
        | signature =>
          simp only [hr] at h
          injection h with h
          subst h
          simp [hfalse]
        | signatureBase64 => simp only [hr] at h; cases h
      · refine hsame ?_ ?_ b h
        · rw [hflag]
          cases c with
          | sendWrong h1 v =>
            cases v with
            | false => rfl
            | true => exact absurd (List.mem_cons_self _ _) (hno h1)
          | signature => exact hfalse
          | signatureBase64 => exact hfalse
        · intro h1 hm
          exact hno h1 (List.mem_cons_of_mem _ hm)

theorem Build.buffer_isSome (B : Build) : ∃ buffer, B.buffer = some buffer :=
  ⟨_, B.buffer_eq⟩

end Runs

/-! ## The fingerprint -/

section Fingerprint

/-- C1: the bytes fed to the digest are one byte holding `NUM_PACKET_TYPE`, then one byte
`versionForPacketType c` for each code `c = 0, 1, ..., NUM_PACKET_TYPE - 1` in ascending
order. For a count `n ≤ 255` the buffer has length `n + 1`, byte 0 is `n`, byte `c + 1` is
`versionForPacketType c` for every `c < n`, and the raw fingerprint is the MD5 digest of
the buffer. -/
theorem fingerprint_buffer_layout (B : Build) (hn : B.types.NUM_PACKET_TYPE ≤ 255) :
    ∃ buffer, B.buffer = some buffer ∧
      buffer = B.types.NUM_PACKET_TYPE ::
        (List.range B.types.NUM_PACKET_TYPE).map (versionForPacketType B.types B.versions) ∧
      buffer.length = B.types.NUM_PACKET_TYPE + 1 ∧
      buffer[0]? = some B.types.NUM_PACKET_TYPE ∧
      (∀ c, c < B.types.NUM_PACKET_TYPE →
        buffer[c + 1]? = some (versionForPacketType B.types B.versions c)) ∧
      (∃ s1, ensureProtocolVersionsSignature B State.initial = some s1 ∧
        s1.protocolVersionSignature = md5 buffer) ∧
      (protocolVersionsSignature B State.initial).map Prod.fst = some (md5 buffer) := by
  have hmod : B.types.NUM_PACKET_TYPE % 256 = B.types.NUM_PACKET_TYPE :=
    Nat.mod_eq_of_lt (by omega)
  have hb := B.buffer_eq
  rw [hmod] at hb
  refine ⟨_, hb, rfl, by simp, by simp, ?_, ?_, ?_⟩
  · intro c hc
    simp [List.getElem?_map, List.getElem?_range hc]
  · obtain ⟨s1, h1, -, h3, -⟩ :=
      ensureProtocolVersionsSignature_spec B _ hb State.initial (State.initial_consistent _)
    exact ⟨s1, h1, h3⟩
  · obtain ⟨s1, h1, -, h3, -, -, h6, -⟩ :=
      ensureProtocolVersionsSignature_spec B _ hb State.initial (State.initial_consistent _)
    have hf : s1.sendWrongProtocolVersion = false := h6
    simp [protocolVersionsSignature, h1, hf, h3]

theorem fingerprint_buffer_layout_witness :
    sampleRelease.types.NUM_PACKET_TYPE ≤ 255 ∧
    ∃ buffer, sampleRelease.buffer = some buffer ∧
      buffer = sampleRelease.types.NUM_PACKET_TYPE ::
        (List.range sampleRelease.types.NUM_PACKET_TYPE).map
          (versionForPacketType sampleRelease.types sampleRelease.versions) ∧
      buffer.length = sampleRelease.types.NUM_PACKET_TYPE + 1 ∧
      buffer[0]? = some sampleRelease.types.NUM_PACKET_TYPE ∧
      (∀ c, c < sampleRelease.types.NUM_PACKET_TYPE →
        buffer[c + 1]? = some (versionForPacketType sampleRelease.types sampleRelease.versions c)) ∧
      (∃ s1, ensureProtocolVersionsSignature sampleRelease State.initial = some s1 ∧
        s1.protocolVersionSignature = md5 buffer) ∧
      (protocolVersionsSignature sampleRelease State.initial).map Prod.fst = some (md5 buffer) :=
  ⟨by decide, fingerprint_buffer_layout sampleRelease (by decide)⟩

/-- C7: changing the version of one type code `t < n` to a different one-byte value, all
other versions and the count held fixed, changes the serialized buffer in byte `t + 1`
and in no other byte; hence the two buffers differ, and so do their digests unless the
digest collides on them. -/
theorem fingerprint_sensitive_to_one_version (n : Nat) (version : Nat → Nat) (t v : Nat)
    (hn : n ≤ 255) (ht : t < n) (hv : v < 256) (hver : version t < 256)
    (hne : v ≠ version t) :
    ∃ b1 b2, versionsBuffer n version = some b1 ∧
      versionsBuffer n (Function.update version t v) = some b2 ∧
      b1.length = b2.length ∧
      b1[t + 1]? = some (version t) ∧ b2[t + 1]? = some v ∧
      (∀ i, i ≠ t + 1 → b1[i]? = b2[i]?) ∧
      b1 ≠ b2 ∧
      ((md5 b1 = md5 b2 → b1 = b2) → md5 b1 ≠ md5 b2) := by
  have hmod : n % 256 = n := Nat.mod_eq_of_lt (by omega)
  have e1 := versionsBuffer_eq n version
  have e2 := versionsBuffer_eq n (Function.update version t v)
  rw [hmod] at e1 e2
  have g1 : (n :: (List.range n).map (fun c => version c % 256))[t + 1]? = some (version t) := by
    simp [List.getElem?_map, List.getElem?_range ht, Nat.mod_eq_of_lt hver]
  have g2 : (n :: (List.range n).map (fun c => Function.update version t v c % 256))[t + 1]?
      = some v := by
    simp [List.getElem?_map, List.getElem?_range ht, Nat.mod_eq_of_lt hv]
  have hdiff : (n :: (List.range n).map (fun c => version c % 256)) ≠
      (n :: (List.range n).map (fun c => Function.update version t v c % 256)) := by
    intro heq
    rw [heq, g2] at g1
    exact hne (Option.some.inj g1)
  refine ⟨_, _, e1, e2, by simp, g1, g2, ?_, hdiff, fun h hc => hdiff (h hc)⟩
  intro i hi
  cases i with
  | zero => simp
  | succ j =>
    have hj : j ≠ t := fun h => hi (by rw [h])
    simp only [List.getElem?_cons_succ, List.getElem?_map]
    by_cases hjn : j < n
    · simp [List.getElem?_range hjn, Function.update_noteq hj]
    · have : (List.range n)[j]? = none := by
        rw [List.getElem?_eq_none_iff]; simp; omega
      simp [this]

theorem fingerprint_sensitive_to_one_version_witness :
    (3 ≤ 255 ∧ 1 < 3 ∧ 3 < 256 ∧ [1, 2, 1].getD 1 17 < 256 ∧ 3 ≠ [1, 2, 1].getD 1 17) ∧
    ∃ b1 b2, versionsBuffer 3 (fun c => [1, 2, 1].getD c 17) = some b1 ∧
      versionsBuffer 3 (Function.update (fun c => [1, 2, 1].getD c 17) 1 3) = some b2 ∧
      b1.length = b2.length ∧
      b1[1 + 1]? = some ([1, 2, 1].getD 1 17) ∧ b2[1 + 1]? = some 3 ∧
      (∀ i, i ≠ 1 + 1 → b1[i]? = b2[i]?) ∧
      b1 ≠ b2 ∧
      ((md5 b1 = md5 b2 → b1 = b2) → md5 b1 ≠ md5 b2) :=
  ⟨by decide,
    fingerprint_sensitive_to_one_version 3 (fun c => [1, 2, 1].getD c 17) 1 3
      (by decide) (by decide) (by decide) (by decide) (by decide)⟩

end Fingerprint

/-! ## The accessors over a process lifetime -/

section Accessors

/-- C9: after any sequence of calls, `protocolVersionsSignature()` returns something other
than the cached digest only in a PR or DEV build in which the most recent setter call was
`sendWrongProtocolVersionsSignature(true)`, and then it returns the 16 bytes
`INCORRECTVERSION`; in a production build it returns the cached digest, whatever the
calls made before. -/
theorem override_only_in_debug_build (B : Build) (ops : List (Call B)) :
    ∃ buffer rs s r s1, B.buffer = some buffer ∧ run B State.initial ops = some (rs, s) ∧
      protocolVersionsSignature B s = some (r, s1) ∧
      s1.protocolVersionSignature = md5 buffer ∧
      (r ≠ s1.protocolVersionSignature → B.debug = true ∧ lastSendWrong ops = some true) ∧
      (B.debug = true → lastSendWrong ops = some true → r = INCORRECTVERSION) ∧
      INCORRECTVERSION.length = 16 ∧
      (B.debug = false → r = s1.protocolVersionSignature) := by
  obtain ⟨buffer, hb⟩ := B.buffer_isSome
  obtain ⟨rs, s, hrun, hs, -, hflag, -⟩ :=
    run_spec B buffer hb ops State.initial (State.initial_consistent _)
  obtain ⟨s1, h1, -, h3, -, -, h6, -⟩ := ensureProtocolVersionsSignature_spec B buffer hb s hs
  have hflag1 : s1.sendWrongProtocolVersion = (lastSendWrong ops).getD false := by
    rw [h6, hflag]; rfl
  by_cases hd : (B.debug && s1.sendWrongProtocolVersion) = true
  · refine ⟨buffer, rs, s, INCORRECTVERSION, s1, hb, hrun, ?_, h3, ?_, fun _ _ => rfl,
      by decide, ?_⟩
    · simp [protocolVersionsSignature, h1, hd]
    · intro _
      obtain ⟨hd1, hd2⟩ := Bool.and_eq_true_iff.mp hd
      refine ⟨hd1, ?_⟩
      rw [hflag1] at hd2
      cases hl : lastSendWrong ops with
      | none => rw [hl] at hd2; exact absurd hd2 (by decide)
      | some v => rw [hl] at hd2; exact congrArg some hd2
    · intro hf
      rw [hf] at hd
      exact absurd hd (by simp)
  · refine ⟨buffer, rs, s, s1.protocolVersionSignature, s1, hb, hrun, ?_, h3,
      fun h => absurd rfl h, ?_, by decide, fun _ => rfl⟩
    · simp [protocolVersionsSignature, h1, hd]
    · intro hdbg hl
      rw [hflag1, hl, hdbg] at hd
      exact absurd rfl hd

/-- Evaluation for C3: in a PR or DEV build of the sample header, two calls of
`protocolVersionsSignature()` around `sendWrongProtocolVersionsSignature(true)` return
different bytes. -/
theorem signature_calls_differ_under_override :
    (run sampleDebug State.initial
        [.signature, .sendWrong rfl true, .signature]).map Prod.fst =
      some [.bytes [210, 11, 74, 59, 230, 180, 128, 10, 103, 126, 112, 81, 155, 148, 131, 33],
        .unit, .bytes [73, 78, 67, 79, 82, 82, 69, 67, 84, 86, 69, 82, 83, 73, 79, 78]] ∧
    ¬ (∀ (B : Build) (ops : List (Call B)) (rs : List Result) (s : State) (b1 b2 : List Nat),
        run B State.initial ops = some (rs, s) → Result.bytes b1 ∈ rs →
          Result.bytes b2 ∈ rs → b1 = b2) := by
  have h : (run sampleDebug State.initial
        [.signature, .sendWrong rfl true, .signature]).map Prod.fst =
      some [.bytes [210, 11, 74, 59, 230, 180, 128, 10, 103, 126, 112, 81, 155, 148, 131, 33],
        .unit, .bytes [73, 78, 67, 79, 82, 82, 69, 67, 84, 86, 69, 82, 83, 73, 79, 78]] := by
    decide!
  refine ⟨h, ?_⟩
  intro hall
  cases hr : run sampleDebug State.initial [.signature, .sendWrong rfl true, .signature] with
  | none => rw [hr] at h; cases h
  | some p =>
    obtain ⟨rs, s⟩ := p
    rw [hr] at h
    simp only [Option.map_some', Option.some.injEq] at h
    have := hall sampleDebug _ rs s
      [210, 11, 74, 59, 230, 180, 128, 10, 103, 126, 112, 81, 155, 148, 131, 33]
      [73, 78, 67, 79, 82, 82, 69, 67, 84, 86, 69, 82, 83, 73, 79, 78] hr
      (by rw [h]; simp) (by rw [h]; simp)
    exact absurd this (by decide)

end Accessors

section Accessors2

/-- C3, amended: over any sequence of calls the digest is computed at most once, exactly
once as soon as a fingerprint accessor has been called (on the first such call); once
computed, the cached signature, its base64 form and the run counter are not modified by
any further call; any two calls of `protocolVersionsSignatureBase64()` return the same
string; any two calls of `protocolVersionsSignature()` return the same bytes in a
production build, and in any build in which `sendWrongProtocolVersionsSignature(true)`
is not called; in general each returns the cached digest or `INCORRECTVERSION`. -/
theorem fingerprint_computed_once (B : Build) (ops more : List (Call B)) :
    ∃ buffer rs s rs2 s2, B.buffer = some buffer ∧
      run B State.initial ops = some (rs, s) ∧ run B s more = some (rs2, s2) ∧
      s.digestRuns = (if ops.any Call.isAccessor then 1 else 0) ∧
      (s.once = true →
        s.protocolVersionSignature = md5 buffer ∧
        s2.protocolVersionSignature = s.protocolVersionSignature ∧
        s2.protocolVersionSignatureBase64 = s.protocolVersionSignatureBase64 ∧
        s2.digestRuns = s.digestRuns) ∧
      (∀ t1 t2, Result.text t1 ∈ rs → Result.text t2 ∈ rs → t1 = t2) ∧
      (B.debug = false →
        ∀ b1 b2, Result.bytes b1 ∈ rs → Result.bytes b2 ∈ rs → b1 = b2) ∧
      ((∀ h, Call.sendWrong h true ∉ ops) →
        ∀ b1 b2, Result.bytes b1 ∈ rs → Result.bytes b2 ∈ rs → b1 = b2) ∧
      (∀ b, Result.bytes b ∈ rs → b = md5 buffer ∨ b = INCORRECTVERSION) := by
  obtain ⟨buffer, hb⟩ := B.buffer_isSome
  obtain ⟨rs, s, hrun, hs, honce, -, htext, hbytes, hsame⟩ :=
    run_spec B buffer hb ops State.initial (State.initial_consistent _)
  obtain ⟨rs2, s2, hrun2, hs2, honce2, -⟩ := run_spec B buffer hb more s hs
  refine ⟨buffer, rs, s, rs2, s2, hb, hrun, hrun2, ?_, ?_, ?_, ?_, ?_, ?_⟩
  · have ho : s.once = ops.any Call.isAccessor := by
      rw [honce]; rfl
    unfold State.Consistent at hs
    rw [← ho]
    by_cases h : s.once = true
    · rw [if_pos h] at hs ⊢
      exact hs.2.2
    · rw [if_neg h] at hs ⊢
      exact hs
  · intro h
    have h2 : s2.once = true := by rw [honce2, h]; rfl
    unfold State.Consistent at hs hs2
    rw [if_pos h] at hs
    rw [if_pos h2] at hs2
    exact ⟨hs.1, by rw [hs.1, hs2.1], by rw [hs.2.1, hs2.2.1], by rw [hs.2.2, hs2.2.2]⟩
  · intro t1 t2 h1 h2
    rw [htext t1 h1, htext t2 h2]
  · intro hd b1 b2 h1 h2
    have e : ∀ b, Result.bytes b ∈ rs → b = md5 buffer := by
      intro b hbm
      rcases hbytes b hbm with h | ⟨h, -⟩
      · exact h
      · rw [hd] at h; cases h
    rw [e b1 h1, e b2 h2]
  · intro hno b1 b2 h1 h2
    rw [hsame rfl hno b1 h1, hsame rfl hno b2 h2]
  · intro b hbm
    rcases hbytes b hbm with h | ⟨-, h⟩
    · exact Or.inl h
    · exact Or.inr h

/-- Evaluation for C2: in a PR or DEV build of the sample header, after
`sendWrongProtocolVersionsSignature(true)`, the text returned by
`protocolVersionsSignatureBase64()` does not decode to the bytes returned by
`protocolVersionsSignature()`. -/
theorem base64_round_trip_fails_under_override :
    (run sampleDebug State.initial
        [.sendWrong rfl true, .signature, .signatureBase64]).map Prod.fst =
      some [.unit, .bytes [73, 78, 67, 79, 82, 82, 69, 67, 84, 86, 69, 82, 83, 73, 79, 78],
        .text "0gtKO+a0gApnfnBRm5SDIQ=="] ∧
    fromBase64 "0gtKO+a0gApnfnBRm5SDIQ==" ≠
      [73, 78, 67, 79, 82, 82, 69, 67, 84, 86, 69, 82, 83, 73, 79, 78] := by
  constructor
  · decide!
  · decide!

/-- C2, amended: in every state of a production build, and in every state of a PR or DEV
build in which the most recent setter call, if any, was not
`sendWrongProtocolVersionsSignature(true)`, base64-decoding the string returned by
`protocolVersionsSignatureBase64()` yields exactly the bytes returned by
`protocolVersionsSignature()`, the MD5 digest of the buffer. -/
theorem base64_round_trip (B : Build) (ops : List (Call B))
    (h : B.debug = false ∨ lastSendWrong ops ≠ some true) :
    ∃ buffer rs s raw s1 text s2, B.buffer = some buffer ∧
      run B State.initial ops = some (rs, s) ∧
      protocolVersionsSignature B s = some (raw, s1) ∧
      protocolVersionsSignatureBase64 B s = some (text, s2) ∧
      fromBase64 text = raw ∧ raw = md5 buffer := by
  obtain ⟨buffer, hb⟩ := B.buffer_isSome
  obtain ⟨rs, s, hrun, hs, -, hflag, -⟩ :=
    run_spec B buffer hb ops State.initial (State.initial_consistent _)
  obtain ⟨s1, h1, -, h3, h4, -, h6, -⟩ := ensureProtocolVersionsSignature_spec B buffer hb s hs
  have hoff : (B.debug && s1.sendWrongProtocolVersion) = false := by
    rcases h with h | h
    · rw [h]; rfl
    · rw [h6, hflag]
      cases hl : lastSendWrong ops with
      | none => simp [State.initial]
      | some v =>
        cases v with
        | false => simp
        | true => exact absurd hl h
  refine ⟨buffer, rs, s, md5 buffer, s1, toBase64 (md5 buffer), s1, hb, hrun, ?_, ?_, ?_, rfl⟩
  · simp [protocolVersionsSignature, h1, hoff, h3]
  · simp [protocolVersionsSignatureBase64, h1, h4]
  · exact fromBase64_toBase64 _ (md5_lt buffer)

theorem base64_round_trip_witness :
    (sampleRelease.debug = false ∨
      lastSendWrong ([.signatureBase64, .signature] : List (Call sampleRelease)) ≠ some true) ∧
    ∃ buffer rs s raw s1 text s2, sampleRelease.buffer = some buffer ∧
      run sampleRelease State.initial [.signatureBase64, .signature] = some (rs, s) ∧
      protocolVersionsSignature sampleRelease s = some (raw, s1) ∧
      protocolVersionsSignatureBase64 sampleRelease s = some (text, s2) ∧
      fromBase64 text = raw ∧ raw = md5 buffer :=
  ⟨Or.inl rfl, base64_round_trip sampleRelease [.signatureBase64, .signature] (Or.inl rfl)⟩

end Accessors2

end PacketHeaders
